import Mathlib

/-!
# log-analyzer: a tailing error counter with a periodic window reset

A shallow embedding of `main.go` (package `main`) and the properties of its
monitoring loop.

Conventions of the embedding

* Go strings are modelled as the sequence of their code points (`Str`); the file
  is the sequence of code points it holds.
* `errorCount` is a Go `int`: an integer with 64-bit two's-complement wrap-around
  on `errorCount++`.
* Standard output is the list of the texts written by the successive
  `fmt.Printf` / `fmt.Println` calls, oldest first.
* The `select` of the loop and the other processes writing to the file are the
  environment: a run is driven by a list of `Event`s, one per loop iteration
  (`tick` when `ticker.C` is ready, `poll` for the `default` branch) or per
  append made to the file by a writer.
* `unicode.ToUpper` on a non-ASCII rune is a table of the Go standard library
  that is not part of this repository; it is the parameter `upperCase`.
* The file system has path lookup through symbolic links, regular files with
  owner, group and permission bits, the user id, groups and umask of the
  process, and a per-place flag for whether a file can be created there; the
  three calls `os.Stat`, `os.WriteFile` and `os.Open` run one after the other
  with no other process changing the files in between.
-/

namespace LogAnalyzer

/-- Text: the code points of a Go string. -/
abbrev Str := List Char

/-! ## Constants (`main.go`, lines 13-17) -/

/-- The constant `logFile`. -/
def logFile : Str := "access.log".toList

/-- The constant `errorThreshold`. -/
def errorThreshold : Int := 3

/-! ## Pieces of the Go runtime used by the program -/

/-- Go `int` arithmetic: the result of an operation, wrapped to 64 bits. -/
def wrapInt (x : Int) : Int := (x + 2 ^ 63) % 2 ^ 64 - 2 ^ 63

/-- The verb `%d` of `fmt` applied to an `int`. -/
def fmtInt : Int → Str
  | Int.ofNat m => Nat.toDigits 10 m
  | Int.negSucc m => '-' :: Nat.toDigits 10 (m + 1)

/-- Go `unicode.IsSpace`: the Latin-1 cases and the `White_Space` table. -/
def isSpace (c : Char) : Bool :=
  let r := c.toNat
  if r ≤ 0xFF then
    r = 0x09 || r = 0x0A || r = 0x0B || r = 0x0C || r = 0x0D || r = 0x20 || r = 0x85 || r = 0xA0
  else
    r = 0x1680 || (0x2000 ≤ r && r ≤ 0x200A) || r = 0x2028 || r = 0x2029 || r = 0x202F ||
      r = 0x205F || r = 0x3000

/-- Go `strings.TrimSpace`: leading, then trailing white space removed. -/
def TrimSpace (s : Str) : Str := (s.dropWhile isSpace).rdropWhile isSpace

/-- Go `unicode.ToUpper`: the ASCII branch is in the function itself, the other
runes go through the case table `upperCase` of the standard library. -/
def unicodeToUpper (upperCase : Char → Char) (c : Char) : Char :=
  if c.toNat ≤ 0x7F then
    if 0x61 ≤ c.toNat ∧ c.toNat ≤ 0x7A then Char.ofNat (c.toNat - 0x20) else c
  else upperCase c

/-- Go `strings.ToUpper`. -/
def ToUpper (upperCase : Char → Char) (s : Str) : Str := s.map (unicodeToUpper upperCase)

/-- Go `strings.Contains`: `substr` starts at some index of `s`. -/
def Contains : Str → Str → Bool
  | [], substr => substr.isPrefixOf []
  | c :: cs, substr => substr.isPrefixOf (c :: cs) || Contains cs substr

/-- The scan of `bufio.Reader.ReadString`: the bytes up to and including the first
`delim`, and whether `delim` was found before the data ran out. -/
def readUntil (delim : Char) : Str → Str × Bool
  | [] => ([], false)
  | c :: cs =>
    if c = delim then ([c], true)
    else ((c :: (readUntil delim cs).1), (readUntil delim cs).2)

/-- A fragment of the upper-case table, used at concrete inputs: the two non-ASCII
runes whose upper-case form is ASCII (dotless i, long s); every other rune is
left in place. -/
def upperLatin (c : Char) : Char :=
  if c.toNat = 0x131 then 'I' else if c.toNat = 0x17F then 'S' else c

/-! ## The file system (`os.Stat`, `os.WriteFile`, `os.Open`) -/

/-- A regular file: its owner, its group, its permission bits and its content. -/
structure File where
  uid : Nat
  gid : Nat
  mode : Nat
  data : Str
  deriving DecidableEq

/-- The file system as the process sees it.
`resolve` follows the directories and symbolic links of a path to the place it
names (`none`: the lookup fails with an error other than "does not exist");
`files` is what each place holds; `mayCreate` tells whether the process can
create a file at a place (the directory is there and writable, no limit is hit);
`createGid` is the group a file created at a place receives; `euid`, `groups` and
`umask` are those of the process. -/
structure FileSystem where
  resolve : Str → Option Str
  files : Str → Option File
  mayCreate : Str → Bool
  createGid : Str → Nat
  euid : Nat
  groups : List Nat
  umask : Nat

/-- The errors of a path operation, as far as `os.IsNotExist` tells them apart. -/
inductive PathError where
  | notExist
  | other
  deriving DecidableEq

/-- The permission check on a file: `bit` is 2 for reading and 1 for writing; the
owner class applies to the owner, else the group class to a member of the group,
else the class of the others; a process with user id 0 passes. -/
def permitted (fs : FileSystem) (f : File) (bit : Nat) : Bool :=
  fs.euid == 0 ||
    (if f.uid = fs.euid then f.mode.testBit (bit + 6)
     else if f.gid ∈ fs.groups then f.mode.testBit (bit + 3)
     else f.mode.testBit bit)

/-- The permission bits of a created file: `perm` less the bits of the umask. -/
def applyUmask (perm umask : Nat) : Nat := perm - (perm &&& umask)

/-- Go `os.Stat`: follows symbolic links; a place that holds nothing is the error
for which `os.IsNotExist` is true. -/
def Stat (fs : FileSystem) (path : Str) : Except PathError File :=
  match fs.resolve path with
  | none => Except.error PathError.other
  | some place =>
    match fs.files place with
    | none => Except.error PathError.notExist
    | some f => Except.ok f

/-- Go `os.WriteFile(name, data, perm)`: open for writing with creation and
truncation (symbolic links followed), write, close. An existing file needs the
write permission and keeps its owner and bits; a new file belongs to the process
and has `perm` less the umask. -/
def WriteFile (fs : FileSystem) (name data : Str) (perm : Nat) : Except PathError FileSystem :=
  match fs.resolve name with
  | none => Except.error PathError.other
  | some place =>
    match fs.files place with
    | some f =>
      if permitted fs f 1 then
        Except.ok { fs with
          files := fun q => if q = place then some { f with data := data } else fs.files q }
      else Except.error PathError.other
    | none =>
      if fs.mayCreate place then
        Except.ok { fs with
          files := fun q =>
            if q = place then
              some { uid := fs.euid, gid := fs.createGid place,
                     mode := applyUmask perm fs.umask, data := data }
            else fs.files q }
      else Except.error PathError.other

/-- The function `ensureLogFileExists` (lines 94-98): the file is written when
`os.Stat` fails with the error of `os.IsNotExist`; the error of `os.WriteFile` is
dropped. -/
def ensureLogFileExists (fs : FileSystem) (path : Str) : FileSystem :=
  match Stat fs path with
  | Except.error PathError.notExist =>
    match WriteFile fs path [] 0o644 with
    | Except.ok fs1 => fs1
    | Except.error _ => fs
  | _ => fs

/-- Go `os.Open`: open for reading (symbolic links followed); the content of the
file, or `none` for the error. -/
def Open (fs : FileSystem) (fileName : Str) : Option Str :=
  match fs.resolve fileName with
  | none => none
  | some place =>
    match fs.files place with
    | none => none
    | some f => if permitted fs f 2 then some f.data else none

/-! ## The monitoring loop (`tailAndAnalyze`, lines 30-85) -/

/-- The state of `tailAndAnalyze`: the file behind the handle, the position of
`reader` in it, the counter and what has been printed. -/
structure Monitor where
  file : Str
  pos : Nat
  errorCount : Int
  stdout : List Str
  deriving DecidableEq

/-- What drives one step of a run. -/
inductive Event where
  | tick
  | poll
  | append (bytes : Str)
  deriving DecidableEq

/-- Line 57: the text of the window-reset notice. -/
def windowResetNotice (errorCount : Int) : Str :=
  "--- Window Reset: Cleared ".toList ++ fmtInt errorCount ++ " errors ---\n".toList

/-- Line 76: the text of the per-line notice. -/
def detectedNotice (cleanLine : Str) (errorCount : Int) : Str :=
  "⚠️  Detected Error: ".toList ++ cleanLine ++ " (Total in window: ".toList ++
    fmtInt errorCount ++ ")\n".toList

/-- The function `triggerAlert` (lines 87-92): its four writes. -/
def triggerAlert (count : Int) : List Str :=
  [ "\n#############################################\n".toList,
    "🚨 ALERT: High Error Rate Detected!\n".toList,
    "Observed ".toList ++ fmtInt count ++ " errors in the last window.\n".toList,
    "#############################################\n\n".toList ]

/-- The state after lines 31-48 on a file holding `content`: the reader sits at
the end of the file, the counter is zero. -/
def start (content : Str) : Monitor :=
  { file := content, pos := content.length, errorCount := 0, stdout := [] }

/-- Lines 54-59: the `case <-ticker.C` branch. -/
def onTick (m : Monitor) : Monitor :=
  if m.errorCount > 0 then
    { m with stdout := m.stdout ++ [windowResetNotice m.errorCount], errorCount := 0 }
  else m

/-- Line 73: `cleanLine`. -/
def cleanLine (upperCase : Char → Char) (line : Str) : Str :=
  ToUpper upperCase (TrimSpace line)

/-- Line 74: the condition of the `if`. -/
def isErrorLine (upperCase : Char → Char) (line : Str) : Bool :=
  Contains (cleanLine upperCase line) "ERROR".toList ||
    Contains (cleanLine upperCase line) "500".toList

/-- Lines 72-82: what is done with a line that `ReadString` returned without error. -/
def analyze (upperCase : Char → Char) (m : Monitor) (line : Str) : Monitor :=
  if isErrorLine upperCase line then
    let errorCount := wrapInt (m.errorCount + 1)
    let out := m.stdout ++ [detectedNotice (cleanLine upperCase line) errorCount]
    if errorCount ≥ errorThreshold then
      { m with stdout := out ++ triggerAlert errorCount, errorCount := 0 }
    else
      { m with stdout := out, errorCount := errorCount }
  else m

/-- Line 65: `reader.ReadString` on the state: the returned text, whether the
error is nil, and the state with the reader moved past what was returned. -/
def ReadString (m : Monitor) : Str × Bool × Monitor :=
  let r := readUntil '\n' (m.file.drop m.pos)
  (r.1, r.2, { m with pos := m.pos + r.1.length })

/-- Lines 61-82: the `default` branch. With an error from `ReadString` the
iteration ends after the sleep, whatever was returned with the error. -/
def onDefault (upperCase : Char → Char) (m : Monitor) : Monitor :=
  match ReadString m with
  | (line, ok, m1) => if ok then analyze upperCase m1 line else m1

/-- One step of a run. -/
def step (upperCase : Char → Char) (m : Monitor) : Event → Monitor
  | Event.tick => onTick m
  | Event.poll => onDefault upperCase m
  | Event.append bytes => { m with file := m.file ++ bytes }

/-- A run of the loop over a schedule of events. -/
def run (upperCase : Char → Char) (m : Monitor) (evs : List Event) : Monitor :=
  evs.foldl (step upperCase) m

/-- The function `tailAndAnalyze` up to the end of a schedule: `none` is the
`log.Fatalf` of line 34. -/
def tailAndAnalyze (upperCase : Char → Char) (fs : FileSystem) (fileName : Str)
    (evs : List Event) : Option Monitor :=
  match Open fs fileName with
  | none => none
  | some content => some (run upperCase (start content) evs)

/-- Line 89: the banner line of `triggerAlert`. -/
def alertBanner : Str := "🚨 ALERT: High Error Rate Detected!\n".toList

/-- The number of alerts in an output: the occurrences of the banner line. -/
def alertCount (out : List Str) : Nat := out.count alertBanner

/-- Processing the lines of a list one after the other, with no tick in between. -/
def analyzeAll (upperCase : Char → Char) (m : Monitor) (lines : List Str) : Monitor :=
  lines.foldl (analyze upperCase) m

/-- The number of lines of a list that satisfy the condition of line 74. -/
def matchCount (upperCase : Char → Char) (lines : List Str) : Nat :=
  lines.countP (isErrorLine upperCase)

/-- The counter of a reachable state lies in `[0, errorThreshold)`. -/
def Inv (m : Monitor) : Prop := 0 ≤ m.errorCount ∧ m.errorCount < errorThreshold

/-- Every text of an output is one of the notices of the loop, the alert being the
one for `errorThreshold`. -/
def OutOk (out : List Str) : Prop :=
  ∀ w ∈ out, (∃ k, w = windowResetNotice k) ∨ (∃ cl k, w = detectedNotice cl k) ∨
    w ∈ triggerAlert errorThreshold

/-- The state `m` seen behind `pre`: the same run on a file that held `pre` before
the content of `m.file`. -/
def shift (pre : Str) (m : Monitor) : Monitor :=
  { m with file := pre ++ m.file, pos := pre.length + m.pos }

/-! ## Basic facts about the embedding -/

theorem contains_iff_isInfix (s p : Str) : Contains s p = true ↔ p <:+: s := by
  induction s with
  | nil =>
    simp only [Contains, List.isPrefixOf_iff_prefix]
    constructor
    · intro h; exact h.isInfix
    · intro h; rw [List.eq_nil_of_infix_nil h]
  | cons c cs ih =>
    simp only [Contains, Bool.or_eq_true, List.isPrefixOf_iff_prefix, ih, List.infix_cons_iff]

theorem wrapInt_small (x : Int) (h0 : 0 ≤ x) (h3 : x < 3) : wrapInt (x + 1) = x + 1 := by
  unfold wrapInt; omega

theorem isErrorLine_iff (u : Char → Char) (line : Str) :
    isErrorLine u line = true ↔
      ("ERROR".toList <:+: ToUpper u (TrimSpace line) ∨
        "500".toList <:+: ToUpper u (TrimSpace line)) := by
  simp only [isErrorLine, cleanLine, Bool.or_eq_true, contains_iff_isInfix]

theorem analyze_miss (u : Char → Char) (m : Monitor) (line : Str)
    (h : isErrorLine u line = false) : analyze u m line = m := by
  simp [analyze, h]

theorem analyze_hit_low (u : Char → Char) (m : Monitor) (line : Str)
    (h : isErrorLine u line = true) (h0 : 0 ≤ m.errorCount) (h2 : m.errorCount < 2) :
    analyze u m line =
      { m with stdout := m.stdout ++ [detectedNotice (cleanLine u line) (m.errorCount + 1)],
               errorCount := m.errorCount + 1 } := by
  have hw : wrapInt (m.errorCount + 1) = m.errorCount + 1 := wrapInt_small _ h0 (by omega)
  have hlt : ¬ (m.errorCount + 1 ≥ errorThreshold) := by unfold errorThreshold; omega
  simp [analyze, h, hw, hlt]

theorem analyze_hit_top (u : Char → Char) (m : Monitor) (line : Str)
    (h : isErrorLine u line = true) (h2 : m.errorCount = 2) :
    analyze u m line =
      { m with stdout := m.stdout ++ [detectedNotice (cleanLine u line) 3] ++
                 triggerAlert errorThreshold,
               errorCount := 0 } := by
  have hw : wrapInt (m.errorCount + 1) = 3 := by rw [h2]; unfold wrapInt; omega
  simp [analyze, h, hw, errorThreshold]

theorem inv_start (content : Str) : Inv (start content) := by
  simp [Inv, start, errorThreshold]

theorem inv_onTick (m : Monitor) (h : Inv m) : Inv (onTick m) := by
  unfold onTick
  split
  · simp [Inv, errorThreshold]
  · exact h

theorem inv_analyze (u : Char → Char) (m : Monitor) (line : Str) (h : Inv m) :
    Inv (analyze u m line) := by
  obtain ⟨h0, h3⟩ := h
  unfold errorThreshold at h3
  cases hm : isErrorLine u line with
  | false => rw [analyze_miss u m line hm]; exact ⟨h0, h3⟩
  | true =>
    by_cases h2 : m.errorCount < 2
    · rw [analyze_hit_low u m line hm h0 h2]
      exact ⟨by show 0 ≤ m.errorCount + 1; omega,
        by show m.errorCount + 1 < errorThreshold; unfold errorThreshold; omega⟩
    · rw [analyze_hit_top u m line hm (by omega)]
      simp [Inv, errorThreshold]

theorem inv_onDefault (u : Char → Char) (m : Monitor) (h : Inv m) : Inv (onDefault u m) := by
  unfold onDefault ReadString
  dsimp only
  split
  · exact inv_analyze u _ _ h
  · exact h

theorem inv_step (u : Char → Char) (m : Monitor) (e : Event) (h : Inv m) :
    Inv (step u m e) := by
  cases e with
  | tick => exact inv_onTick m h
  | poll => exact inv_onDefault u m h
  | append bytes => exact h

theorem inv_run (u : Char → Char) (m : Monitor) (evs : List Event) (h : Inv m) :
    Inv (run u m evs) := by
  induction evs generalizing m with
  | nil => exact h
  | cons e es ih => exact ih (step u m e) (inv_step u m e h)

/-! ## What a step writes -/

theorem detectedNotice_head (cl : Str) (k : Int) :
    (detectedNotice cl k).head? = some (Char.ofNat 0x26A0) := rfl

theorem windowResetNotice_head (k : Int) : (windowResetNotice k).head? = some '-' := rfl

theorem alertCount_append (a b : List Str) : alertCount (a ++ b) = alertCount a + alertCount b := by
  simp [alertCount, List.count_append]

theorem alertCount_detected (cl : Str) (k : Int) : alertCount [detectedNotice cl k] = 0 := by
  have hne : detectedNotice cl k ≠ alertBanner := by
    intro h
    have h2 := congrArg List.head? h
    rw [detectedNotice_head] at h2
    revert h2
    decide
  simp only [alertCount, List.count_cons, List.count_nil, beq_iff_eq, hne, if_false]

theorem alertCount_windowReset (k : Int) : alertCount [windowResetNotice k] = 0 := by
  have hne : windowResetNotice k ≠ alertBanner := by
    intro h
    have h2 := congrArg List.head? h
    rw [windowResetNotice_head] at h2
    revert h2
    decide
  simp only [alertCount, List.count_cons, List.count_nil, beq_iff_eq, hne, if_false]

theorem alertCount_triggerAlert (k : Int) : alertCount (triggerAlert k) = 1 := by
  have h1 : ("Observed ".toList ++ fmtInt k ++ " errors in the last window.\n".toList) ≠
      alertBanner := by
    intro h
    have h2 := congrArg List.head? h
    revert h2
    show some 'O' = some _ → False
    decide
  have h0 : "\n#############################################\n".toList ≠ alertBanner := by decide
  have h3 : "#############################################\n\n".toList ≠ alertBanner := by decide
  have h2 : "🚨 ALERT: High Error Rate Detected!\n".toList = alertBanner := rfl
  simp only [alertCount, triggerAlert, List.count_cons, List.count_nil, beq_iff_eq, h0, h1, h2, h3,
    if_false, if_true]

/-- The writes of one loop iteration from a state with the counter in range. -/
theorem analyze_writes (u : Char → Char) (m : Monitor) (line : Str) (h : Inv m) :
    (isErrorLine u line = false ∧ analyze u m line = m) ∨
    (isErrorLine u line = true ∧ m.errorCount + 1 < errorThreshold ∧
      analyze u m line =
        { m with stdout := m.stdout ++ [detectedNotice (cleanLine u line) (m.errorCount + 1)],
                 errorCount := m.errorCount + 1 }) ∨
    (isErrorLine u line = true ∧ m.errorCount + 1 = errorThreshold ∧
      analyze u m line =
        { m with stdout := m.stdout ++ [detectedNotice (cleanLine u line) errorThreshold] ++
                   triggerAlert errorThreshold,
                 errorCount := 0 }) := by
  obtain ⟨h0, h3⟩ := h
  unfold errorThreshold at h3
  cases hm : isErrorLine u line with
  | false => exact Or.inl ⟨rfl, analyze_miss u m line hm⟩
  | true =>
    by_cases h2 : m.errorCount < 2
    · exact Or.inr (Or.inl ⟨rfl, by unfold errorThreshold; omega, analyze_hit_low u m line hm h0 h2⟩)
    · have h2e : m.errorCount = 2 := by omega
      exact Or.inr (Or.inr ⟨rfl, by unfold errorThreshold; omega, analyze_hit_top u m line hm h2e⟩)

theorem onDefault_eq (u : Char → Char) (m : Monitor) :
    onDefault u m =
      if (ReadString m).2.1 = true then analyze u (ReadString m).2.2 (ReadString m).1
      else (ReadString m).2.2 := by
  unfold onDefault
  rfl

theorem ReadString_frame (m : Monitor) :
    (ReadString m).2.2.stdout = m.stdout ∧ (ReadString m).2.2.errorCount = m.errorCount ∧
      (ReadString m).2.2.file = m.file := ⟨rfl, rfl, rfl⟩

theorem step_writes (u : Char → Char) (m : Monitor) (e : Event) (h : Inv m) :
    ∃ new, (step u m e).stdout = m.stdout ++ new ∧
      ((new = [] ∧ (step u m e).errorCount = m.errorCount) ∨
       (0 < m.errorCount ∧ new = [windowResetNotice m.errorCount] ∧
          (step u m e).errorCount = 0) ∨
       (∃ cl, m.errorCount + 1 < errorThreshold ∧
          new = [detectedNotice cl (m.errorCount + 1)] ∧
          (step u m e).errorCount = m.errorCount + 1) ∨
       (∃ cl, m.errorCount + 1 = errorThreshold ∧
          new = detectedNotice cl errorThreshold :: triggerAlert errorThreshold ∧
          (step u m e).errorCount = 0)) := by
  cases e with
  | tick =>
    by_cases hc : m.errorCount > 0
    · refine ⟨[windowResetNotice m.errorCount], ?_, Or.inr (Or.inl ⟨hc, rfl, ?_⟩)⟩
      · simp [step, onTick, hc]
      · simp [step, onTick, hc]
    · refine ⟨[], ?_, Or.inl ⟨rfl, ?_⟩⟩
      · simp [step, onTick, hc]
      · simp [step, onTick, hc]
  | append bytes => exact ⟨[], by simp [step], Or.inl ⟨rfl, rfl⟩⟩
  | poll =>
    have hstep : step u m Event.poll = onDefault u m := rfl
    rw [hstep, onDefault_eq]
    obtain ⟨hs, hc, -⟩ := ReadString_frame m
    by_cases hok : (ReadString m).2.1 = true
    · rw [if_pos hok]
      have hi : Inv (ReadString m).2.2 := by
        unfold Inv; rw [hc]; exact h
      rcases analyze_writes u (ReadString m).2.2 (ReadString m).1 hi with
        ⟨-, ha⟩ | ⟨-, hlt, ha⟩ | ⟨-, heq, ha⟩
      · rw [ha]
        exact ⟨[], by rw [hs]; simp, Or.inl ⟨rfl, hc⟩⟩
      · rw [ha, hc] at *
        exact ⟨_, by rw [hs], Or.inr (Or.inr (Or.inl ⟨_, hlt, rfl, rfl⟩))⟩
      · rw [ha]
        rw [hc] at heq
        refine ⟨_, ?_, Or.inr (Or.inr (Or.inr ⟨cleanLine u (ReadString m).1, heq, rfl, rfl⟩))⟩
        show ((ReadString m).2.2.stdout ++ _ ++ _) = _
        rw [hs]; simp
    · rw [if_neg hok]
      exact ⟨[], by rw [hs]; simp, Or.inl ⟨rfl, hc⟩⟩

theorem outOk_step (u : Char → Char) (m : Monitor) (e : Event) (h : Inv m)
    (ho : OutOk m.stdout) : OutOk (step u m e).stdout := by
  obtain ⟨new, hnew, hcase⟩ := step_writes u m e h
  rw [hnew]
  intro w hw
  rcases List.mem_append.1 hw with hw | hw
  · exact ho w hw
  · rcases hcase with ⟨hn, -⟩ | ⟨-, hn, -⟩ | ⟨cl, -, hn, -⟩ | ⟨cl, -, hn, -⟩
    · rw [hn] at hw; cases hw
    · rw [hn, List.mem_singleton] at hw
      exact Or.inl ⟨_, hw⟩
    · rw [hn, List.mem_singleton] at hw
      exact Or.inr (Or.inl ⟨_, _, hw⟩)
    · rw [hn, List.mem_cons] at hw
      rcases hw with hw | hw
      · exact Or.inr (Or.inl ⟨_, _, hw⟩)
      · exact Or.inr (Or.inr hw)

theorem outOk_run (u : Char → Char) (m : Monitor) (evs : List Event) (h : Inv m)
    (ho : OutOk m.stdout) : OutOk (run u m evs).stdout := by
  induction evs generalizing m with
  | nil => exact ho
  | cons e es ih => exact ih (step u m e) (inv_step u m e h) (outOk_step u m e h ho)

theorem observed_of_outOk (out : List Str) (ho : OutOk out) (w : Str) (hw : w ∈ out)
    (hp : "Observed ".toList <+: w) : w = "Observed 3 errors in the last window.\n".toList := by
  have hhead : w.head? = some 'O' := by
    obtain ⟨t, ht⟩ := hp
    rw [← ht]
    rfl
  have halert : ∀ v ∈ triggerAlert errorThreshold, "Observed ".toList <+: v →
      v = "Observed 3 errors in the last window.\n".toList := by decide
  rcases ho w hw with ⟨k, hk⟩ | ⟨cl, k, hk⟩ | hk
  · rw [hk, windowResetNotice_head] at hhead
    exact absurd hhead (by decide)
  · rw [hk, detectedNotice_head] at hhead
    exact absurd hhead (by decide)
  · exact halert w hk hp

theorem analyzeAll_counts (u : Char → Char) (lines : List Str) (m : Monitor) (h : Inv m) :
    alertCount (analyzeAll u m lines).stdout =
        alertCount m.stdout + (m.errorCount.toNat + matchCount u lines) / 3 ∧
      (analyzeAll u m lines).errorCount =
        (((m.errorCount.toNat + matchCount u lines) % 3 : Nat) : Int) := by
  induction lines generalizing m with
  | nil =>
    obtain ⟨h0, h3⟩ := h
    unfold errorThreshold at h3
    simp only [analyzeAll, matchCount, List.foldl_nil, List.countP_nil, Nat.add_zero]
    constructor <;> omega
  | cons l ls ih =>
    have hstep : analyzeAll u m (l :: ls) = analyzeAll u (analyze u m l) ls := rfl
    have hih := ih (analyze u m l) (inv_analyze u m l h)
    have hcnt : matchCount u (l :: ls) =
        matchCount u ls + (if isErrorLine u l = true then 1 else 0) := by
      simp [matchCount, List.countP_cons]
    obtain ⟨h0, h3⟩ := h
    unfold errorThreshold at h3
    rw [hstep, hcnt]
    rcases analyze_writes u m l ⟨h0, h3⟩ with ⟨hf, ha⟩ | ⟨ht, hlt, ha⟩ | ⟨ht, heq, ha⟩
    · rw [ha] at hih
      rw [ha, hf]
      simpa using hih
    · rw [ha] at hih
      rw [ha, ht, if_pos rfl]
      simp only [alertCount_append, alertCount_detected, Nat.add_zero] at hih
      unfold errorThreshold at hlt
      have e1 : (m.errorCount + 1).toNat = m.errorCount.toNat + 1 := by omega
      rw [e1] at hih
      constructor
      · rw [hih.1]; omega
      · rw [hih.2]; omega
    · rw [ha] at hih
      rw [ha, ht, if_pos rfl]
      simp only [alertCount_append, alertCount_detected, alertCount_triggerAlert,
        Nat.add_zero] at hih
      unfold errorThreshold at heq
      have e1 : m.errorCount.toNat = 2 := by omega
      have e0 : (0 : Int).toNat = 0 := rfl
      rw [e0] at hih
      rw [e1]
      constructor
      · rw [hih.1]; omega
      · rw [hih.2]; omega

/-! ## The window-reset notice -/

theorem windowReset_ne_detected (k : Int) (cl : Str) (j : Int) :
    windowResetNotice k ≠ detectedNotice cl j := by
  intro h
  have h2 := congrArg List.head? h
  rw [windowResetNotice_head, detectedNotice_head] at h2
  exact absurd h2 (by decide)

theorem windowReset_not_mem_triggerAlert (k t : Int) : windowResetNotice k ∉ triggerAlert t := by
  intro h
  have hh : ∀ v ∈ triggerAlert t, v.head? ≠ some '-' := by
    intro v hv
    simp only [triggerAlert, List.mem_cons, List.mem_singleton, List.not_mem_nil, or_false] at hv
    rcases hv with hv | hv | hv | hv
    · rw [hv]; decide
    · rw [hv]; decide
    · rw [hv]
      show some 'O' ≠ some '-'
      decide
    · rw [hv]; decide
  exact hh _ h (windowResetNotice_head k)

theorem noReset_run (u : Char → Char) (evs : List Event) (m : Monitor) (hinv : Inv m)
    (h0 : ∀ k, k ≤ evs.length → (run u m (evs.take k)).errorCount = 0)
    (hm : ∀ k, windowResetNotice k ∉ m.stdout) :
    ∀ k, windowResetNotice k ∉ (run u m evs).stdout := by
  induction evs generalizing m with
  | nil => exact hm
  | cons e es ih =>
    have hz : m.errorCount = 0 := h0 0 (Nat.zero_le _)
    apply ih (step u m e) (inv_step u m e hinv)
    · intro k hk
      exact h0 (k + 1) (by simpa using hk)
    · intro k hk
      obtain ⟨new, hnew, hcase⟩ := step_writes u m e hinv
      rw [hnew] at hk
      rcases List.mem_append.1 hk with hk | hk
      · exact hm k hk
      · rcases hcase with ⟨hn, -⟩ | ⟨hpos, -, -⟩ | ⟨cl, -, hn, -⟩ | ⟨cl, -, hn, -⟩
        · rw [hn] at hk; cases hk
        · omega
        · rw [hn, List.mem_singleton] at hk
          exact windowReset_ne_detected _ _ _ hk
        · rw [hn, List.mem_cons] at hk
          rcases hk with hk | hk
          · exact windowReset_ne_detected _ _ _ hk
          · exact windowReset_not_mem_triggerAlert _ _ hk

/-! ## The reader and the content that was there before the start -/

theorem readUntil_spec (d : Char) (s : Str) : ∃ rest, s = (readUntil d s).1 ++ rest := by
  induction s with
  | nil => exact ⟨[], rfl⟩
  | cons c cs ih =>
    by_cases hc : c = d
    · exact ⟨cs, by simp [readUntil, hc]⟩
    · obtain ⟨rest, hrest⟩ := ih
      refine ⟨rest, ?_⟩
      simp only [readUntil, hc, if_false, List.cons_append]
      rw [← hrest]

theorem analyze_shift (u : Char → Char) (pre : Str) (m : Monitor) (line : Str) :
    analyze u (shift pre m) line = shift pre (analyze u m line) := by
  unfold analyze shift
  dsimp only
  split
  · split <;> rfl
  · rfl

theorem step_shift (u : Char → Char) (pre : Str) (m : Monitor) (e : Event) :
    step u (shift pre m) e = shift pre (step u m e) := by
  cases e with
  | tick =>
    show onTick (shift pre m) = shift pre (onTick m)
    unfold onTick shift
    dsimp only
    split <;> rfl
  | append bytes =>
    show ({ shift pre m with file := (shift pre m).file ++ bytes } : Monitor) = _
    simp [shift, step, List.append_assoc]
  | poll =>
    show onDefault u (shift pre m) = shift pre (onDefault u m)
    have hd : (shift pre m).file.drop (shift pre m).pos = m.file.drop m.pos := by
      simp [shift, List.drop_append]
    have hr1 : (ReadString (shift pre m)).1 = (ReadString m).1 := by
      simp only [ReadString, hd]
    have hr2 : (ReadString (shift pre m)).2.1 = (ReadString m).2.1 := by
      simp only [ReadString, hd]
    have hr3 : (ReadString (shift pre m)).2.2 = shift pre (ReadString m).2.2 := by
      simp only [ReadString, hd]
      simp [shift, Nat.add_assoc]
    rw [onDefault_eq, onDefault_eq, hr1, hr2, hr3]
    split
    · exact analyze_shift u pre _ _
    · rfl

theorem run_shift (u : Char → Char) (pre : Str) (m : Monitor) (evs : List Event) :
    run u (shift pre m) evs = shift pre (run u m evs) := by
  induction evs generalizing m with
  | nil => rfl
  | cons e es ih =>
    show run u (step u (shift pre m) e) es = shift pre (run u (step u m e) es)
    rw [step_shift, ih]

theorem start_eq_shift (content : Str) : start content = shift content (start []) := by
  simp [start, shift]

theorem pos_le_step (u : Char → Char) (m : Monitor) (e : Event) : m.pos ≤ (step u m e).pos := by
  cases e with
  | tick =>
    show m.pos ≤ (onTick m).pos
    unfold onTick
    split <;> exact Nat.le_refl _
  | append bytes => exact Nat.le_refl _
  | poll =>
    show m.pos ≤ (onDefault u m).pos
    rw [onDefault_eq]
    have hp : m.pos ≤ (ReadString m).2.2.pos := Nat.le_add_right _ _
    split
    · have ha : (analyze u (ReadString m).2.2 (ReadString m).1).pos = (ReadString m).2.2.pos := by
        unfold analyze
        dsimp only
        split
        · split <;> rfl
        · rfl
      rw [ha]; exact hp
    · exact hp

/-! ## Trimming and upper-casing against the two markers -/

theorem infix_dropWhile (p : Char → Bool) (sub : Str) (hne : sub ≠ [])
    (hp : ∀ c ∈ sub, p c = false) (l : Str) (h : sub <:+: l) : sub <:+: l.dropWhile p := by
  induction l with
  | nil => exact h
  | cons x xs ih =>
    by_cases hx : p x = true
    · rw [List.dropWhile_cons_of_pos hx]
      rcases List.infix_cons_iff.1 h with hpre | hin
      · exfalso
        cases sub with
        | nil => exact hne rfl
        | cons c t =>
          obtain ⟨r, hr⟩ := hpre
          have hcx : c = x := by
            have := congrArg List.head? hr
            simpa using this
          have := hp c (List.mem_cons_self c t)
          rw [hcx, hx] at this
          cases this
      · exact ih hin
    · rw [List.dropWhile_cons_of_neg hx]
      exact h

theorem infix_rdropWhile (p : Char → Bool) (sub : Str) (hne : sub ≠ [])
    (hp : ∀ c ∈ sub, p c = false) (l : Str) (h : sub <:+: l) : sub <:+: l.rdropWhile p := by
  have h1 : sub.reverse <:+: (l.reverse).dropWhile p := by
    apply infix_dropWhile p sub.reverse
    · simpa using hne
    · intro c hc
      exact hp c (List.mem_reverse.1 hc)
    · exact List.reverse_infix.2 h
  have h2 := List.reverse_infix.2 h1
  rw [List.reverse_reverse] at h2
  exact h2

theorem TrimSpace_isInfix (line : Str) : TrimSpace line <:+: line := by
  unfold TrimSpace
  exact (List.IsPrefix.isInfix ( List.rdropWhile_prefix isSpace _)).trans
    ((List.dropWhile_suffix isSpace).isInfix)

theorem infix_TrimSpace (sub line : Str) (hne : sub ≠ [])
    (hp : ∀ c ∈ sub, isSpace c = false) (h : sub <:+: line) : sub <:+: TrimSpace line := by
  unfold TrimSpace
  exact infix_rdropWhile isSpace sub hne hp _ (infix_dropWhile isSpace sub hne hp _ h)

theorem map_eq_iff_of_pointwise (f g : Char → Char) (S : List Char)
    (h : ∀ c t, t ∈ S → (f c = t ↔ g c = t)) (sub P : Str) (hP : ∀ t ∈ P, t ∈ S) :
    sub.map f = P ↔ sub.map g = P := by
  induction sub generalizing P with
  | nil => simp
  | cons c cs ih =>
    cases P with
    | nil => simp
    | cons t ts =>
      simp only [List.map_cons, List.cons.injEq]
      rw [h c t (hP t (List.mem_cons_self t ts)),
        ih ts (fun t1 ht1 => hP t1 (List.mem_cons_of_mem t ht1))]

set_option maxRecDepth 100000 in
theorem ascii_marker_facts : ∀ n, n < 128 → ∀ t ∈ ['E', 'R', 'O', '5', '0'],
    (Char.ofNat n).toUpper = t →
      isSpace (Char.ofNat n) = false ∧ (t ∈ ['5', '0'] → Char.ofNat n = t) := by
  decide

theorem toUpper_of_not_ascii (c : Char) (hc : 0x7F < c.toNat) : c.toUpper = c := by
  unfold Char.toUpper
  have hn : ¬ (c.toNat ≥ 97 ∧ c.toNat ≤ 122) := by omega
  simp only [hn, if_false]

theorem not_marker_of_not_ascii (c : Char) (hc : 0x7F < c.toNat) :
    c ∉ ['E', 'R', 'O', '5', '0'] := by
  intro h
  have h127 : ∀ t ∈ ['E', 'R', 'O', '5', '0'], t.toNat ≤ 0x7F := by decide
  have := h127 c h
  omega

theorem unicodeToUpper_ascii (u : Char → Char) (c : Char) (hc : c.toNat ≤ 0x7F) :
    unicodeToUpper u c = c.toUpper := by
  unfold unicodeToUpper Char.toUpper
  simp only [hc, if_true]

theorem unicodeToUpper_marker (u : Char → Char)
    (htbl : ∀ c : Char, 0x7F < c.toNat → u c ∉ ['E', 'R', 'O', '5', '0'])
    (c t : Char) (ht : t ∈ ['E', 'R', 'O', '5', '0']) :
    unicodeToUpper u c = t ↔ c.toUpper = t := by
  by_cases hc : c.toNat ≤ 0x7F
  · rw [unicodeToUpper_ascii u c hc]
  · have hc2 : 0x7F < c.toNat := by omega
    have h1 : unicodeToUpper u c = u c := by
      unfold unicodeToUpper
      simp only [hc, if_false]
    rw [h1, toUpper_of_not_ascii c hc2]
    constructor
    · intro h; rw [← h] at ht; exact absurd ht (htbl c hc2)
    · intro h; rw [← h] at ht; exact absurd ht (not_marker_of_not_ascii c hc2)

theorem toUpper_marker (c t : Char) (ht : t ∈ ['E', 'R', 'O', '5', '0'])
    (h : c.toUpper = t) : isSpace c = false ∧ (t ∈ ['5', '0'] → c = t) := by
  by_cases hc : c.toNat < 128
  · have := ascii_marker_facts c.toNat hc t ht
    rw [Char.ofNat_toNat] at this
    exact this h
  · have hc2 : 0x7F < c.toNat := by omega
    rw [toUpper_of_not_ascii c hc2] at h
    rw [← h] at ht
    exact absurd ht (not_marker_of_not_ascii c hc2)

/-! ## The claims -/

/-- C1: a line returned by the reader without error is recorded as a match exactly
when its upper-cased, trimmed form contains "ERROR" or "500": then one notice with
the incremented count is written (followed by the alert at the threshold), and
otherwise the state, counter and output included, is left as it was. -/
theorem C1_match_iff_markers (u : Char → Char) (content : Str) (evs : List Event)
    (m : Monitor) (line : Str) (hm : m = run u (start content) evs) :
    (analyze u m line ≠ m ↔
      ("ERROR".toList <:+: ToUpper u (TrimSpace line) ∨
        "500".toList <:+: ToUpper u (TrimSpace line))) ∧
    (("ERROR".toList <:+: ToUpper u (TrimSpace line) ∨
        "500".toList <:+: ToUpper u (TrimSpace line)) →
      (analyze u m line).stdout =
          m.stdout ++ detectedNotice (ToUpper u (TrimSpace line)) (m.errorCount + 1) ::
            (if m.errorCount + 1 ≥ errorThreshold then triggerAlert (m.errorCount + 1) else []) ∧
        (analyze u m line).errorCount =
          (if m.errorCount + 1 ≥ errorThreshold then 0 else m.errorCount + 1)) ∧
    (¬ ("ERROR".toList <:+: ToUpper u (TrimSpace line) ∨
        "500".toList <:+: ToUpper u (TrimSpace line)) →
      analyze u m line = m) ∧
    ((ReadString m).2.1 = true →
      step u m Event.poll = analyze u (ReadString m).2.2 (ReadString m).1) := by
  have hinv : Inv m := by rw [hm]; exact inv_run u _ evs (inv_start content)
  have hhit : ("ERROR".toList <:+: ToUpper u (TrimSpace line) ∨
        "500".toList <:+: ToUpper u (TrimSpace line)) →
      (analyze u m line).stdout =
          m.stdout ++ detectedNotice (ToUpper u (TrimSpace line)) (m.errorCount + 1) ::
            (if m.errorCount + 1 ≥ errorThreshold then triggerAlert (m.errorCount + 1) else []) ∧
        (analyze u m line).errorCount =
          (if m.errorCount + 1 ≥ errorThreshold then 0 else m.errorCount + 1) := by
    intro hx
    have he : isErrorLine u line = true := (isErrorLine_iff u line).2 hx
    rcases analyze_writes u m line hinv with ⟨hf, -⟩ | ⟨-, hlt, ha⟩ | ⟨-, heq, ha⟩
    · rw [he] at hf; cases hf
    · have hn : ¬ (m.errorCount + 1 ≥ errorThreshold) := by omega
      rw [ha, if_neg hn, if_neg hn]
      exact ⟨rfl, rfl⟩
    · have hn : m.errorCount + 1 ≥ errorThreshold := by omega
      rw [ha, if_pos hn, if_pos hn, heq]
      exact ⟨by simp [cleanLine], rfl⟩
  have hmiss : ¬ ("ERROR".toList <:+: ToUpper u (TrimSpace line) ∨
        "500".toList <:+: ToUpper u (TrimSpace line)) → analyze u m line = m := by
    intro hx
    apply analyze_miss
    rw [← Bool.not_eq_true, isErrorLine_iff]
    exact hx
  refine ⟨⟨?_, ?_⟩, hhit, hmiss, ?_⟩
  · intro hne
    by_contra hx
    exact hne (hmiss hx)
  · intro hx heq
    have h1 := (hhit hx).1
    rw [heq] at h1
    have h2 := congrArg List.length h1
    simp at h2
  · intro hok
    show onDefault u m = _
    rw [onDefault_eq, if_pos hok]

theorem C1_match_iff_markers_witness :
    start [] = run upperLatin (start []) [] ∧
    (analyze upperLatin (start []) "status=500\n".toList ≠ start [] ↔
      ("ERROR".toList <:+: ToUpper upperLatin (TrimSpace "status=500\n".toList) ∨
        "500".toList <:+: ToUpper upperLatin (TrimSpace "status=500\n".toList))) :=
  ⟨rfl, (C1_match_iff_markers upperLatin [] [] (start []) "status=500\n".toList rfl).1⟩

/-- C4: in every state reached from the start of the loop the counter is at least
zero; it is zero right after a tick that found it positive, and right after any
step that wrote an alert. -/
theorem C4_count_nonneg_and_reset (u : Char → Char) (content : Str) (evs : List Event)
    (m : Monitor) (hm : m = run u (start content) evs) :
    0 ≤ m.errorCount ∧
    (0 < m.errorCount → (step u m Event.tick).errorCount = 0) ∧
    (∀ e, alertCount (step u m e).stdout ≠ alertCount m.stdout →
      (step u m e).errorCount = 0) := by
  have hinv : Inv m := by rw [hm]; exact inv_run u _ evs (inv_start content)
  refine ⟨hinv.1, ?_, ?_⟩
  · intro hpos
    simp [step, onTick, hpos]
  · intro e hne
    obtain ⟨new, hnew, hcase⟩ := step_writes u m e hinv
    rw [hnew, alertCount_append] at hne
    rcases hcase with ⟨hn, -⟩ | ⟨-, -, hz⟩ | ⟨cl, -, hn, -⟩ | ⟨cl, -, -, hz⟩
    · rw [hn] at hne
      exact absurd rfl hne
    · exact hz
    · rw [hn, alertCount_detected] at hne
      exact absurd rfl hne
    · exact hz

theorem C4_count_nonneg_and_reset_witness :
    start [] = run upperLatin (start []) [] ∧ 0 ≤ (start []).errorCount :=
  ⟨rfl, (C4_count_nonneg_and_reset upperLatin [] [] (start []) rfl).1⟩

/-- C10: in every state reached from the start of the loop the counter lies in
`[0, errorThreshold)`; a step writes nothing, or the window-reset notice, or the
notice of a match below the threshold, or the notice of the match that reaches
the threshold followed by `triggerAlert errorThreshold`; and every "Observed"
line of the output reads "Observed 3 errors in the last window." -/
theorem C10_count_below_threshold (u : Char → Char) (content : Str) (evs : List Event)
    (m : Monitor) (hm : m = run u (start content) evs) :
    (0 ≤ m.errorCount ∧ m.errorCount < errorThreshold) ∧
    (∀ e, ∃ new, (step u m e).stdout = m.stdout ++ new ∧
      ((new = [] ∧ (step u m e).errorCount = m.errorCount) ∨
       (0 < m.errorCount ∧ new = [windowResetNotice m.errorCount] ∧
          (step u m e).errorCount = 0) ∨
       (∃ cl, m.errorCount + 1 < errorThreshold ∧
          new = [detectedNotice cl (m.errorCount + 1)] ∧
          (step u m e).errorCount = m.errorCount + 1) ∨
       (∃ cl, m.errorCount + 1 = errorThreshold ∧
          new = detectedNotice cl errorThreshold :: triggerAlert errorThreshold ∧
          (step u m e).errorCount = 0))) ∧
    (∀ w ∈ m.stdout, "Observed ".toList <+: w →
      w = "Observed 3 errors in the last window.\n".toList) := by
  have hinv : Inv m := by rw [hm]; exact inv_run u _ evs (inv_start content)
  have hout : OutOk m.stdout := by
    rw [hm]
    refine outOk_run u _ evs (inv_start content) ?_
    intro w hw
    cases hw
  exact ⟨hinv, fun e => step_writes u m e hinv, fun w hw hp => observed_of_outOk _ hout w hw hp⟩

theorem C10_count_below_threshold_witness :
    start [] = run upperLatin (start []) [] ∧
      (0 ≤ (start []).errorCount ∧ (start []).errorCount < errorThreshold) :=
  ⟨rfl, (C10_count_below_threshold upperLatin [] [] (start []) rfl).1⟩

/-- C5: from a counter of zero and with no tick in between, after any list of
lines with `n` matches the alert has been written `n / errorThreshold` times and
the counter is `n % errorThreshold`; one more line adds an alert exactly when it
is a match whose rank is a multiple of the threshold; and the lines "ERROR foo",
"status=500", "error BAR" give no alert after two of them, one alert after the
third and a counter of zero. -/
theorem C5_alert_every_threshold (u : Char → Char) (content : Str) (lines : List Str) :
    alertCount (analyzeAll u (start content) lines).stdout =
        matchCount u lines / errorThreshold.toNat ∧
    (analyzeAll u (start content) lines).errorCount =
        ((matchCount u lines % errorThreshold.toNat : Nat) : Int) ∧
    (∀ line, alertCount (analyzeAll u (start content) (lines ++ [line])).stdout =
        alertCount (analyzeAll u (start content) lines).stdout +
          (if isErrorLine u line = true ∧ (matchCount u lines + 1) % errorThreshold.toNat = 0
            then 1 else 0)) ∧
    (alertCount (run upperLatin (start [])
        [Event.append "ERROR foo\n".toList, Event.append "status=500\n".toList,
          Event.append "error BAR\n".toList, Event.poll, Event.poll]).stdout = 0 ∧
      alertCount (run upperLatin (start [])
        [Event.append "ERROR foo\n".toList, Event.append "status=500\n".toList,
          Event.append "error BAR\n".toList, Event.poll, Event.poll, Event.poll]).stdout = 1 ∧
      (run upperLatin (start [])
        [Event.append "ERROR foo\n".toList, Event.append "status=500\n".toList,
          Event.append "error BAR\n".toList, Event.poll, Event.poll, Event.poll]).errorCount
        = 0) := by
  have key : ∀ ls : List Str,
      alertCount (analyzeAll u (start content) ls).stdout = matchCount u ls / 3 ∧
      (analyzeAll u (start content) ls).errorCount = ((matchCount u ls % 3 : Nat) : Int) := by
    intro ls
    have h := analyzeAll_counts u ls (start content) (inv_start content)
    have e0 : (start content).errorCount.toNat = 0 := rfl
    have e1 : alertCount (start content).stdout = 0 := rfl
    rw [e0, e1] at h
    simpa using h
  have ht : errorThreshold.toNat = 3 := rfl
  rw [ht]
  refine ⟨(key lines).1, (key lines).2, ?_, ?_⟩
  · intro line
    rw [(key (lines ++ [line])).1, (key lines).1]
    have hcnt : matchCount u (lines ++ [line]) =
        matchCount u lines + (if isErrorLine u line = true then 1 else 0) := by
      simp [matchCount, List.countP_append, List.countP_cons]
    rw [hcnt]
    by_cases he : isErrorLine u line = true
    · by_cases hr : (matchCount u lines + 1) % 3 = 0
      · rw [if_pos he, if_pos ⟨he, hr⟩]; omega
      · rw [if_pos he, if_neg (fun h => hr h.2)]; omega
    · rw [if_neg he, if_neg (fun h => he h.1)]; omega
  · exact ⟨by decide, by decide, by decide⟩

/-- C6: a tick on a positive counter `k` writes the one window-reset notice for `k`
and sets the counter to zero; a tick on a zero counter changes nothing; a run whose
counter is zero at every step never holds a window-reset notice; and a tick after
two matches writes "Cleared 2", after which a match is reported with count 1 and
no alert. -/
theorem C6_tick_resets_window (u : Char → Char) (m : Monitor) :
    (0 < m.errorCount →
      onTick m =
        { m with stdout := m.stdout ++ [windowResetNotice m.errorCount], errorCount := 0 }) ∧
    (m.errorCount = 0 → onTick m = m) ∧
    (∀ (content : Str) (evs : List Event),
      (∀ k, k ≤ evs.length → (run u (start content) (evs.take k)).errorCount = 0) →
      ∀ k, windowResetNotice k ∉ (run u (start content) evs).stdout) ∧
    (∀ line, m.errorCount = 2 → isErrorLine u line = true →
      analyze u (onTick m) line =
        { m with stdout := m.stdout ++ ["--- Window Reset: Cleared 2 errors ---\n".toList] ++
                   [detectedNotice (cleanLine u line) 1],
                 errorCount := 1 }) ∧
    run upperLatin (start [])
        [Event.append "ERROR a\n".toList, Event.poll, Event.append "code 500\n".toList,
          Event.poll, Event.tick, Event.append "error b\n".toList, Event.poll] =
      { file := "ERROR a\ncode 500\nerror b\n".toList, pos := 25, errorCount := 1,
        stdout := [detectedNotice "ERROR A".toList 1, detectedNotice "CODE 500".toList 2,
          "--- Window Reset: Cleared 2 errors ---\n".toList,
          detectedNotice "ERROR B".toList 1] } := by
  refine ⟨?_, ?_, ?_, ?_, by decide⟩
  · intro hpos
    simp [onTick, hpos]
  · intro hz
    simp [onTick, hz]
  · intro content evs h0 k
    exact noReset_run u evs (start content) (inv_start content) h0 (fun k hk => by cases hk) k
  · intro line h2 hl
    have ht : onTick m =
        { m with stdout := m.stdout ++ [windowResetNotice 2], errorCount := 0 } := by
      simp [onTick, h2]
    rw [ht, analyze_hit_low u _ line hl (by simp) (by simp)]
    rfl

theorem C6_tick_resets_window_witness :
    ((0 : Int) < 2 ∧
      onTick { file := [], pos := 0, errorCount := 2, stdout := [] } =
        { file := [], pos := 0, errorCount := 0, stdout := [windowResetNotice 2] }) ∧
    ((∀ k, k ≤ 3 → (run upperLatin (start "old\n".toList)
        ([Event.tick, Event.poll, Event.tick].take k)).errorCount = 0) ∧
      ∀ k, windowResetNotice k ∉
        (run upperLatin (start "old\n".toList) [Event.tick, Event.poll, Event.tick]).stdout) :=
  ⟨⟨by decide,
      (C6_tick_resets_window upperLatin
        { file := [], pos := 0, errorCount := 2, stdout := [] }).1 (by decide)⟩,
    ⟨by decide,
      (C6_tick_resets_window upperLatin (start [])).2.2.1 "old\n".toList
        [Event.tick, Event.poll, Event.tick] (by decide)⟩⟩

/-- C3: a run on a file that held `content` at the start has the counter and the
output of the same run on a file that was empty at the start; the reader starts at
the end of `content`, never moves back, and what it returns is text found right
after its position. -/
theorem C3_initial_content_never_read (u : Char → Char) (content : Str) (evs : List Event) :
    (run u (start content) evs).errorCount = (run u (start []) evs).errorCount ∧
    (run u (start content) evs).stdout = (run u (start []) evs).stdout ∧
    (run u (start content) evs).file = content ++ (run u (start []) evs).file ∧
    (run u (start content) evs).pos = content.length + (run u (start []) evs).pos ∧
    (start content).pos = content.length ∧
    (∀ (m : Monitor) (e : Event), m.pos ≤ (step u m e).pos) ∧
    (∀ m : Monitor, ∃ rest, m.file.drop m.pos = (ReadString m).1 ++ rest) := by
  have h : run u (start content) evs = shift content (run u (start []) evs) := by
    rw [start_eq_shift, run_shift]
  rw [h]
  exact ⟨rfl, rfl, rfl, rfl, rfl, pos_le_step u, fun m => readUntil_spec _ _⟩

/-- C2: the run at which the claim fails. After "ERR" is appended, `ReadString`
returns "ERR" with an error and the reader has moved past it; the line "OR" read
after "OR\n" is appended is no match, so nothing is counted, while "ERROR\n"
appended in one piece is counted. -/
theorem C2_partial_line_is_dropped :
    (ReadString (step upperLatin (start []) (Event.append "ERR".toList))).1 = "ERR".toList ∧
    (ReadString (step upperLatin (start []) (Event.append "ERR".toList))).2.1 = false ∧
    (run upperLatin (start []) [Event.append "ERR".toList, Event.poll]).pos = 3 ∧
    (ReadString (run upperLatin (start [])
        [Event.append "ERR".toList, Event.poll, Event.append "OR\n".toList])).1 = "OR\n".toList ∧
    (run upperLatin (start [])
        [Event.append "ERR".toList, Event.poll, Event.append "OR\n".toList, Event.poll]).errorCount
      = 0 ∧
    (run upperLatin (start [])
        [Event.append "ERR".toList, Event.poll, Event.append "OR\n".toList, Event.poll]).stdout
      = [] ∧
    (run upperLatin (start []) [Event.append "ERROR\n".toList, Event.poll]).errorCount = 1 := by
  decide

theorem ensure_of_found (fs : FileSystem) (path place : Str) (f : File)
    (hr : fs.resolve path = some place) (hf : fs.files place = some f) :
    ensureLogFileExists fs path = fs := by
  simp [ensureLogFileExists, Stat, hr, hf]

theorem ensure_of_no_lookup (fs : FileSystem) (path : Str) (hr : fs.resolve path = none) :
    ensureLogFileExists fs path = fs := by
  simp [ensureLogFileExists, Stat, hr]

theorem ensure_of_refused (fs : FileSystem) (path place : Str)
    (hr : fs.resolve path = some place) (hf : fs.files place = none)
    (hc : fs.mayCreate place = false) : ensureLogFileExists fs path = fs := by
  simp [ensureLogFileExists, Stat, WriteFile, hr, hf, hc]

theorem ensure_of_created (fs : FileSystem) (path place : Str)
    (hr : fs.resolve path = some place) (hf : fs.files place = none)
    (hc : fs.mayCreate place = true) :
    ensureLogFileExists fs path =
      { fs with
        files := fun q =>
          if q = place then
            some { uid := fs.euid, gid := fs.createGid place,
                   mode := applyUmask 0o644 fs.umask, data := [] }
          else fs.files q } := by
  simp [ensureLogFileExists, Stat, WriteFile, hr, hf, hc]

/-- C8 (as amended): `ensureLogFileExists` leaves the file system as it is when
the path names a file, and when the path cannot be looked up. When the path names
no file and the file can be created, the only change is that the place the path
names (the target of a dangling symbolic link) holds an empty file of the process
with the bits 0644 less the umask, and the open that follows succeeds exactly
when the process has user id 0 or the umask leaves the owner-read bit. When the
file cannot be created nothing changes, the open fails and `tailAndAnalyze` ends
in `log.Fatalf`. A second call changes nothing more. -/
theorem C8_ensure_creates_or_keeps (fs : FileSystem) (path : Str) :
    (∀ place f, fs.resolve path = some place → fs.files place = some f →
      ensureLogFileExists fs path = fs) ∧
    (fs.resolve path = none →
      ensureLogFileExists fs path = fs ∧ Open (ensureLogFileExists fs path) path = none) ∧
    (∀ place, fs.resolve path = some place → fs.files place = none →
      fs.mayCreate place = true →
      (ensureLogFileExists fs path).files place =
          some { uid := fs.euid, gid := fs.createGid place,
                 mode := applyUmask 0o644 fs.umask, data := [] } ∧
        (∀ q, q ≠ place → (ensureLogFileExists fs path).files q = fs.files q) ∧
        ((ensureLogFileExists fs path).resolve = fs.resolve ∧
          (ensureLogFileExists fs path).mayCreate = fs.mayCreate ∧
          (ensureLogFileExists fs path).createGid = fs.createGid ∧
          (ensureLogFileExists fs path).euid = fs.euid ∧
          (ensureLogFileExists fs path).groups = fs.groups ∧
          (ensureLogFileExists fs path).umask = fs.umask) ∧
        Open (ensureLogFileExists fs path) path =
          (if fs.euid = 0 ∨ (applyUmask 0o644 fs.umask).testBit 8 = true then some []
            else none)) ∧
    (∀ place, fs.resolve path = some place → fs.files place = none →
      fs.mayCreate place = false →
      ensureLogFileExists fs path = fs ∧
        Open (ensureLogFileExists fs path) path = none ∧
        ∀ (u : Char → Char) (evs : List Event),
          tailAndAnalyze u (ensureLogFileExists fs path) path evs = none) ∧
    ensureLogFileExists (ensureLogFileExists fs path) path = ensureLogFileExists fs path := by
  refine ⟨?_, ?_, ?_, ?_, ?_⟩
  · intro place f hr hf
    exact ensure_of_found fs path place f hr hf
  · intro hr
    rw [ensure_of_no_lookup fs path hr]
    exact ⟨rfl, by simp [Open, hr]⟩
  · intro place hr hf hc
    rw [ensure_of_created fs path place hr hf hc]
    refine ⟨by simp, ?_, ⟨rfl, rfl, rfl, rfl, rfl, rfl⟩, ?_⟩
    · intro q hq
      simp [hq]
    · by_cases h0 : fs.euid = 0
      · simp [Open, hr, permitted, h0]
      · simp [Open, hr, permitted, h0]
  · intro place hr hf hc
    rw [ensure_of_refused fs path place hr hf hc]
    have ho : Open fs path = none := by simp [Open, hr, hf]
    refine ⟨rfl, ho, ?_⟩
    intro u evs
    simp [tailAndAnalyze, ho]
  · cases hr : fs.resolve path with
    | none => rw [ensure_of_no_lookup fs path hr, ensure_of_no_lookup fs path hr]
    | some place =>
      cases hf : fs.files place with
      | some f => rw [ensure_of_found fs path place f hr hf, ensure_of_found fs path place f hr hf]
      | none =>
        cases hc : fs.mayCreate place with
        | false =>
          rw [ensure_of_refused fs path place hr hf hc, ensure_of_refused fs path place hr hf hc]
        | true =>
          rw [ensure_of_created fs path place hr hf hc]
          exact ensure_of_found _ path place
            { uid := fs.euid, gid := fs.createGid place,
              mode := applyUmask 0o644 fs.umask, data := [] } hr (by simp)

theorem C8_ensure_creates_or_keeps_witness :
    (((⟨fun p => some p, fun _ => none, fun _ => true, fun _ => 1000, 1000, [1000], 0o022⟩ :
          FileSystem).resolve logFile = some logFile ∧
      (⟨fun p => some p, fun _ => none, fun _ => true, fun _ => 1000, 1000, [1000], 0o022⟩ :
          FileSystem).files logFile = none ∧
      (⟨fun p => some p, fun _ => none, fun _ => true, fun _ => 1000, 1000, [1000], 0o022⟩ :
          FileSystem).mayCreate logFile = true) ∧
      Open (ensureLogFileExists
          ⟨fun p => some p, fun _ => none, fun _ => true, fun _ => 1000, 1000, [1000], 0o022⟩
          logFile) logFile = some []) ∧
    (((⟨fun p => some p, fun _ => none, fun _ => false, fun _ => 1000, 1000, [1000], 0o022⟩ :
          FileSystem).resolve logFile = some logFile ∧
      (⟨fun p => some p, fun _ => none, fun _ => false, fun _ => 1000, 1000, [1000], 0o022⟩ :
          FileSystem).files logFile = none ∧
      (⟨fun p => some p, fun _ => none, fun _ => false, fun _ => 1000, 1000, [1000], 0o022⟩ :
          FileSystem).mayCreate logFile = false) ∧
      Open (ensureLogFileExists
          ⟨fun p => some p, fun _ => none, fun _ => false, fun _ => 1000, 1000, [1000], 0o022⟩
          logFile) logFile = none) :=
  ⟨⟨⟨rfl, rfl, rfl⟩,
      ((C8_ensure_creates_or_keeps
          ⟨fun p => some p, fun _ => none, fun _ => true, fun _ => 1000, 1000, [1000], 0o022⟩
          logFile).2.2.1 logFile rfl rfl rfl).2.2.2.trans (by decide)⟩,
    ⟨⟨rfl, rfl, rfl⟩,
      ((C8_ensure_creates_or_keeps
          ⟨fun p => some p, fun _ => none, fun _ => false, fun _ => 1000, 1000, [1000], 0o022⟩
          logFile).2.2.2.1 logFile rfl rfl rfl).2.1⟩⟩

/-- C8, the claim as stated fails in three ways. Where "access.log" names no file
and none can be created, nothing is created and the open fails. Where it can be
created under the umask 0477, the file has the bits 0200, the process may not
read it and `tailAndAnalyze` ends in `log.Fatalf`. Where "access.log" is a
symbolic link to the missing "target.log", the file appears at "target.log". -/
theorem C8_open_can_still_fail :
    (Open (ensureLogFileExists
        ⟨fun p => some p, fun _ => none, fun _ => false, fun _ => 1000, 1000, [1000], 0o022⟩
        logFile) logFile = none ∧
      tailAndAnalyze upperLatin (ensureLogFileExists
        ⟨fun p => some p, fun _ => none, fun _ => false, fun _ => 1000, 1000, [1000], 0o022⟩
        logFile) logFile [] = none) ∧
    ((ensureLogFileExists
        ⟨fun p => some p, fun _ => none, fun _ => true, fun _ => 1000, 1000, [1000], 0o477⟩
        logFile).files logFile = some ⟨1000, 1000, 0o200, []⟩ ∧
      Open (ensureLogFileExists
        ⟨fun p => some p, fun _ => none, fun _ => true, fun _ => 1000, 1000, [1000], 0o477⟩
        logFile) logFile = none ∧
      tailAndAnalyze upperLatin (ensureLogFileExists
        ⟨fun p => some p, fun _ => none, fun _ => true, fun _ => 1000, 1000, [1000], 0o477⟩
        logFile) logFile [] = none) ∧
    ((ensureLogFileExists
        ⟨fun p => if p = logFile then some "target.log".toList else some p, fun _ => none,
          fun _ => true, fun _ => 1000, 1000, [1000], 0o022⟩
        logFile).files logFile = none ∧
      (ensureLogFileExists
        ⟨fun p => if p = logFile then some "target.log".toList else some p, fun _ => none,
          fun _ => true, fun _ => 1000, 1000, [1000], 0o022⟩
        logFile).files "target.log".toList = some ⟨1000, 1000, 0o644, []⟩) := by
  decide

/-- C9 (as amended): a matching line returned by the reader adds one to the counter
and writes exactly one notice, which shows the upper-cased line with the white
space of both ends removed and the count after the increment; at the threshold
the alert follows and the counter is set back to zero. -/
theorem C9_notice_shows_clean_line (u : Char → Char) (content : Str) (evs : List Event)
    (m : Monitor) (hm : m = run u (start content) evs)
    (hok : (ReadString m).2.1 = true) (hhit : isErrorLine u (ReadString m).1 = true) :
    (step u m Event.poll).stdout =
      m.stdout ++ detectedNotice (ToUpper u (TrimSpace (ReadString m).1)) (m.errorCount + 1) ::
        (if m.errorCount + 1 ≥ errorThreshold then triggerAlert errorThreshold else []) ∧
    (step u m Event.poll).errorCount =
      (if m.errorCount + 1 ≥ errorThreshold then 0 else m.errorCount + 1) := by
  have hinv : Inv m := by rw [hm]; exact inv_run u _ evs (inv_start content)
  obtain ⟨hs, hc, -⟩ := ReadString_frame m
  have hi : Inv (ReadString m).2.2 := by
    unfold Inv; rw [hc]; exact hinv
  have hstep : step u m Event.poll = analyze u (ReadString m).2.2 (ReadString m).1 := by
    show onDefault u m = _
    rw [onDefault_eq, if_pos hok]
  rw [hstep]
  rcases analyze_writes u (ReadString m).2.2 (ReadString m).1 hi with
    ⟨hf, -⟩ | ⟨-, hlt, ha⟩ | ⟨-, heq, ha⟩
  · rw [hhit] at hf; cases hf
  · rw [hc] at hlt
    have hn : ¬ (m.errorCount + 1 ≥ errorThreshold) := by omega
    rw [ha, if_neg hn, if_neg hn]
    exact ⟨by show _ ++ _ = _; rw [hs, hc]; rfl, by show _ + 1 = _; rw [hc]⟩
  · rw [hc] at heq
    have hn : m.errorCount + 1 ≥ errorThreshold := by omega
    rw [ha, if_pos hn, if_pos hn]
    refine ⟨?_, rfl⟩
    show _ ++ _ ++ _ = _
    rw [hs, heq]
    simp [cleanLine]

theorem C9_notice_shows_clean_line_witness :
    (step upperLatin (start []) (Event.append "error x\n".toList) =
        run upperLatin (start []) [Event.append "error x\n".toList] ∧
      (ReadString (step upperLatin (start []) (Event.append "error x\n".toList))).2.1 = true ∧
      isErrorLine upperLatin
        (ReadString (step upperLatin (start []) (Event.append "error x\n".toList))).1 = true) ∧
    (step upperLatin (step upperLatin (start []) (Event.append "error x\n".toList))
        Event.poll).errorCount =
      (if (step upperLatin (start []) (Event.append "error x\n".toList)).errorCount + 1 ≥
          errorThreshold then 0
        else (step upperLatin (start []) (Event.append "error x\n".toList)).errorCount + 1) :=
  ⟨⟨rfl, by decide, by decide⟩,
    (C9_notice_shows_clean_line upperLatin [] [Event.append "error x\n".toList]
      (step upperLatin (start []) (Event.append "error x\n".toList)) rfl
      (by decide) (by decide)).2⟩

/-- C9, the claim as stated fails: for the appended line "error x" the reader
returns "error x\n" and the notice shows "ERROR X", not the line with its
trailing white space removed. -/
theorem C9_notice_is_not_the_raw_line :
    (ReadString (step upperLatin (start []) (Event.append "error x\n".toList))).1 =
      "error x\n".toList ∧
    (run upperLatin (start []) [Event.append "error x\n".toList, Event.poll]).stdout =
      [detectedNotice "ERROR X".toList 1] ∧
    (run upperLatin (start []) [Event.append "error x\n".toList, Event.poll]).stdout ≠
      [detectedNotice ("error x\n".toList.rdropWhile isSpace) 1] := by
  decide

theorem marker_infix_iff (u : Char → Char)
    (htbl : ∀ c : Char, 0x7F < c.toNat → u c ∉ ['E', 'R', 'O', '5', '0'])
    (P : Str) (hne : P ≠ []) (hP : ∀ t ∈ P, t ∈ ['E', 'R', 'O', '5', '0']) (line : Str) :
    P <:+: ToUpper u (TrimSpace line) ↔ ∃ sub, sub <:+: line ∧ sub.map Char.toUpper = P := by
  have hpt : ∀ sub : Str, sub.map (unicodeToUpper u) = P ↔ sub.map Char.toUpper = P :=
    fun sub => map_eq_iff_of_pointwise _ _ _ (unicodeToUpper_marker u htbl) sub P hP
  unfold ToUpper
  rw [List.isInfix_map_iff]
  constructor
  · rintro ⟨sub, hsub, hmap⟩
    exact ⟨sub, hsub.trans (TrimSpace_isInfix line), (hpt sub).1 hmap.symm⟩
  · rintro ⟨sub, hsub, hmap⟩
    refine ⟨sub, infix_TrimSpace sub line ?_ ?_ hsub, ((hpt sub).2 hmap).symm⟩
    · intro h0
      rw [h0] at hmap
      exact hne hmap.symm
    · intro c hc
      have hmem : c.toUpper ∈ P := by
        rw [← hmap]
        exact List.mem_map_of_mem _ hc
      exact (toUpper_marker c c.toUpper (hP _ hmem) rfl).1

theorem upperLatin_table : ∀ c : Char, 0x7F < c.toNat →
    upperLatin c ∉ ['E', 'R', 'O', '5', '0'] := by
  intro c hc
  unfold upperLatin
  split
  · decide
  · split
    · decide
    · exact not_marker_of_not_ascii c hc

/-- C7: provided the case table of the library sends no non-ASCII rune to one of
the letters E, R, O or the digits 5, 0, a raw line satisfies the condition of
line 74 exactly when the raw line itself contains "500" or contains a piece that
is "ERROR" once its ASCII letters are upper-cased; so the lines "error" and "500X"
are matches. -/
theorem C7_match_on_raw_line (u : Char → Char)
    (htbl : ∀ c : Char, 0x7F < c.toNat → u c ∉ ['E', 'R', 'O', '5', '0']) (line : Str) :
    (isErrorLine u line = true ↔
      ("500".toList <:+: line ∨
        ∃ sub, sub <:+: line ∧ sub.map Char.toUpper = "ERROR".toList)) ∧
    isErrorLine u "error".toList = true ∧
    isErrorLine u "500X".toList = true := by
  have key : ∀ l : Str, isErrorLine u l = true ↔
      ("500".toList <:+: l ∨ ∃ sub, sub <:+: l ∧ sub.map Char.toUpper = "ERROR".toList) := by
    intro l
    have h5 : (∃ sub, sub <:+: l ∧ sub.map Char.toUpper = "500".toList) ↔
        "500".toList <:+: l := by
      have hid : ∀ sub : Str, sub.map Char.toUpper = "500".toList ↔ sub = "500".toList := by
        intro sub
        have hsub50 : ∀ t ∈ ['5', '0'], t ∈ ['E', 'R', 'O', '5', '0'] := by decide
        have hup50 : ∀ t ∈ ['5', '0'], t.toUpper = t := by decide
        have := map_eq_iff_of_pointwise Char.toUpper id ['5', '0']
          (fun c t ht => by
            constructor
            · intro h
              exact (toUpper_marker c t (hsub50 t ht) h).2 ht
            · intro h
              have h2 : c = t := h
              rw [h2]
              exact hup50 t ht)
          sub "500".toList (by decide)
        rw [this, List.map_id]
      constructor
      · rintro ⟨sub, hsub, hmap⟩
        rw [(hid sub).1 hmap] at hsub
        exact hsub
      · intro h
        exact ⟨_, h, by decide⟩
    rw [isErrorLine_iff,
      marker_infix_iff u htbl "ERROR".toList (by decide) (by decide) l,
      marker_infix_iff u htbl "500".toList (by decide) (by decide) l, h5]
    exact Or.comm
  refine ⟨key line, ?_, ?_⟩
  · exact (key _).2 (Or.inr ⟨"error".toList, by decide, by decide⟩)
  · exact (key _).2 (Or.inl (by decide))

theorem C7_match_on_raw_line_witness :
    (∀ c : Char, 0x7F < c.toNat → upperLatin c ∉ ['E', 'R', 'O', '5', '0']) ∧
    (isErrorLine upperLatin "  an Error here\n".toList = true ↔
      ("500".toList <:+: "  an Error here\n".toList ∨
        ∃ sub, sub <:+: "  an Error here\n".toList ∧
          sub.map Char.toUpper = "ERROR".toList)) :=
  ⟨upperLatin_table,
    (C7_match_on_raw_line upperLatin upperLatin_table "  an Error here\n".toList).1⟩

end LogAnalyzer
